import Mathlib

/-!
Shallow embedding of the worklist/scheduling core of the `iacta` reaction-search
pipeline (`react.py`, `react_utils.py`), together with theorems settling the
frozen claims about it.

Conventions used throughout:
* Python lists become Lean `List`s; `list.pop(0)` becomes taking the head,
  `list.remove(x)` becomes removing the first element equal to `x`.
* Machine integers are `Nat`/`Int` (Python integers are unbounded, so no
  wrap-around modelling is needed).
* Fallible operations return `Option`/`Except`; an uncaught Python exception
  is an `Except.error` (or `none`).
* The external engine (`xtb`) is an opaque parameter: a function from the
  step index and the constraint to either `none` (the engine call raised) or
  `some news` (the trajectory read back from the log after the call, as a
  list of structure/energy pairs).
* Side effects that the claims talk about (scratch-file creation/removal,
  engine invocations) are recorded in an explicit event trace.
* Numeric values parsed from text are represented exactly, as rationals.
-/

namespace Iacta

/-! ## Python slicing with step -1 (used by `reaction_job` in react_utils.py)

`constraints[mtd_index-1:-1:-1]` is a Python slice with step `-1`.
CPython normalizes a slice `l[a:b:-1]` as follows: a negative bound is first
shifted by `len(l)` and then clamped below at `-1`; a non-negative bound is
clamped above at `len(l) - 1`.  The elements are then taken at indices
`start, start-1, ..., stop+1` (empty when `start <= stop`). -/
def pySliceRev {γ : Type} (l : List γ) (a b : Int) : List γ :=
  let n : Int := l.length
  let start : Int := if a < 0 then (if a + n < -1 then -1 else a + n)
                     else (if a > n - 1 then n - 1 else a)
  let stop : Int := if b < 0 then (if b + n < -1 then -1 else b + n)
                    else (if b > n - 1 then n - 1 else b)
  (List.range (start - stop).toNat).filterMap (fun k => l.get? (start - k).toNat)

/-- The constraint list handed to the backward `successive_optimization` call
inside `reaction_job` (react_utils.py line 227):
`constraints[mtd_index-1:-1:-1] + [None]`.
`none` is Python's `None` ("no constraint" sentinel). -/
def reaction_job_backward {γ : Type} (constraints : List γ) (mtd_index : Nat) :
    List (Option γ) :=
  (pySliceRev constraints ((mtd_index : Int) - 1) (-1)).map some ++ [none]

/-- Modelled from the spec's words (section 4.5 / claim C1): the backward chain
steps through the constraints at indices `mtd_index-1, mtd_index-2, ..., 0`
in that order, followed by one sentinel "no constraint" entry. -/
def specBackward {γ : Type} (constraints : List γ) (mtd_index : Nat) :
    List (Option γ) :=
  ((constraints.take mtd_index).reverse).map some ++ [none]

/-- The constraint list handed to the forward call inside `reaction_job`
(react_utils.py line 215): `constraints[mtd_index:] + [None]`. -/
def reaction_job_forward {γ : Type} (constraints : List γ) (mtd_index : Nat) :
    List (Option γ) :=
  (constraints.drop mtd_index).map some ++ [none]

/-! ## The round-robin worklist builder of `react` (react.py lines 256-265)

```
worklist = []
while True:
    for mtd_index, ls_structs in all_structures:
        if len(ls_structs):
            worklist += [(mtd_index, ls_structs.pop(0))]
        else:
            all_structures.remove([mtd_index, ls_structs])
    if len(all_structures) == 0:
        break
```

The `for` loop iterates with an internal cursor `r` that advances by one per
iteration even when `all_structures.remove(...)` shrinks the list, so a
removal makes the loop skip the entry that slides into position `r`.  We
embed this faithfully: `sweepF` is the body of one `for` sweep, with the
cursor `r` explicit.  The fuel argument only bounds the number of loop
iterations; calling it with `st.length` is exact, because the cursor starts
at 0, increases by one per iteration, and the list never grows, so a sweep
performs at most `st.length` iterations and, when the fuel runs out, the
cursor is already past the end of the (only ever shrunken) list. -/

/-- Python's `list.remove(x)`: drop the first element equal to `x`
(our callers only ever remove an element that is present). -/
def removeFirst {β : Type} [DecidableEq β] : List β → β → List β
  | [], _ => []
  | y :: ys, x => if y = x then ys else y :: removeFirst ys x

/-- One `for mtd_index, ls_structs in all_structures:` sweep, cursor `r`. -/
def sweepF {α : Type} [DecidableEq α] :
    Nat → List (Nat × List α) → Nat → List (Nat × α) →
    List (Nat × List α) × List (Nat × α)
  | 0, st, _, acc => (st, acc)
  | fuel + 1, st, r, acc =>
    if h : r < st.length then
      match st.get ⟨r, h⟩ with
      | (m, s :: rest) => sweepF fuel (st.set r (m, rest)) (r + 1) (acc ++ [(m, s)])
      | (m, []) => sweepF fuel (removeFirst st (m, ([] : List α))) (r + 1) acc
    else (st, acc)

def sweep {α : Type} [DecidableEq α] (st : List (Nat × List α))
    (acc : List (Nat × α)) : List (Nat × List α) × List (Nat × α) :=
  sweepF st.length st 0 acc

/-- Total size of the lane state: one unit per lane plus one per structure.
Each sweep over a non-empty state strictly decreases it, which bounds the
number of `while True` iterations. -/
def laneMeasure {α : Type} (st : List (Nat × List α)) : Nat :=
  (st.map (fun q => q.2.length + 1)).sum

/-- The `while True:` loop.  The fuel bounds the number of sweeps; since every
sweep over a non-empty state strictly decreases `laneMeasure` (proved below),
`laneMeasure st + 1` sweeps always suffice, so the fuel-out branch is never
taken by `react_worklist`. -/
def buildLoopF {α : Type} [DecidableEq α] :
    Nat → List (Nat × List α) → List (Nat × α) → List (Nat × α)
  | 0, _, acc => acc
  | fuel + 1, st, acc =>
    if (sweep st acc).1.isEmpty then (sweep st acc).2
    else buildLoopF fuel (sweep st acc).1 (sweep st acc).2

/-- The round-robin worklist built by `react` before the global shuffle:
`lanes` is `all_structures`, a list of (lane index, structure list) pairs. -/
def react_worklist {α : Type} [DecidableEq α] (lanes : List (Nat × List α)) :
    List (Nat × α) :=
  buildLoopF (laneMeasure lanes + 1) lanes []

/-- All (lane, structure) entries of the input lanes, lane by lane, in order:
the reference inventory the worklist should be a permutation of. -/
def taggedLanes {α : Type} (lanes : List (Nat × List α)) : List (Nat × α) :=
  lanes.flatMap (fun q => q.2.map (fun s => (q.1, s)))

/-! ## `successive_optimization` (react_utils.py lines 8-96)

The xtb engine is opaque: `engine i c` is the trajectory read back from the
log file after the constrained optimization of step `i` under constraint `c`
(`none` if the engine call raised).  Structures and energies are parallel
lists in the source (`news, newe = read_trajectory(log)`), modelled here as
one list of pairs.  Side effects are recorded as an event trace:
`tempfile.mkstemp` emits `mkScratch`, each `opt()` call emits `engineCall`,
and each `os.remove` at the end emits `removeScratch`. -/

inductive SOEvent (γ : Type) where
  | mkScratch : SOEvent γ
  | engineCall (i : Nat) (c : γ) : SOEvent γ
  | removeScratch : SOEvent γ
  deriving DecidableEq

/-- The `for i in range(len(constraints))` loop of `successive_optimization`,
with the accumulators `structures`, `energies`, `opt_indices` explicit.
A failing engine call propagates (`Except.error`), aborting the chain.
`opt_indices` records `len(structures) - 1` after each step's append; Python
integers are modelled as `Int` (so an empty first trajectory would record
`-1`, exactly as the source would). -/
def soLoop {γ σ ε : Type} (engine : Nat → γ → Option (List (σ × ε))) :
    List γ → Nat → List σ → List ε → List Int → List (SOEvent γ) →
    Except Unit (List σ × List ε × List Int) × List (SOEvent γ)
  | [], _, S, E, I, ev => (.ok (S, E, I), ev)
  | c :: rest, i, S, E, I, ev =>
    match engine i c with
    | none => (.error (), ev ++ [.engineCall i c])
    | some news =>
      soLoop engine rest (i + 1) (S ++ news.map Prod.fst)
        (E ++ news.map Prod.snd)
        (I ++ [((S.length : Int) + (news.length : Int)) - 1])
        (ev ++ [.engineCall i c])

/-- `successive_optimization(xtb, initial_xyz, constraints, parameters)`.
An empty constraint list returns three empty lists before any scratch file is
created (react_utils.py lines 55-57).  Otherwise the two scratch files
(`current` and `log`) are created, the chain runs, and the two `os.remove`
calls happen only after the loop completes — i.e. only when no step raised. -/
def successive_optimization {γ σ ε : Type}
    (engine : Nat → γ → Option (List (σ × ε))) (constraints : List γ) :
    Except Unit (List σ × List ε × List Int) × List (SOEvent γ) :=
  match constraints with
  | [] => (.ok ([], [], []), [])
  | c :: rest =>
    match soLoop engine (c :: rest) 0 [] [] []
        [SOEvent.mkScratch, SOEvent.mkScratch] with
    | (.ok v, ev) => (.ok v, ev ++ [SOEvent.removeScratch, SOEvent.removeScratch])
    | (.error e, ev) => (.error e, ev)

/-- Number of structures contributed by steps `0..k-1`
(`ns j` is step `j`'s trajectory). -/
def blockSum {σ ε : Type} (ns : Nat → List (σ × ε)) (k : Nat) : Nat :=
  ((List.range k).map (fun j => (ns j).length)).sum

/-! ## The refinement partition of `metadynamics_refine` (react.py lines 186-197)

```
converged = []
errors = []
for f in futures:
    exc = f.exception()
    if exc:
        errors += [f]
    else:
        converged += [f.result()]
```

A future is an `Except η ρ`: `.error` if the submitted job raised, `.ok` with
its result otherwise.  Futures are iterated in submission order. -/

def refineLoop {η ρ : Type} :
    List (Except η ρ) → List ρ × List (Except η ρ) → List ρ × List (Except η ρ)
  | [], acc => acc
  | f :: rest, acc =>
    match f with
    | .error e => refineLoop rest (acc.1, acc.2 ++ [.error e])
    | .ok r => refineLoop rest (acc.1 ++ [r], acc.2)

def refine_partition {η ρ : Type} (futures : List (Except η ρ)) :
    List ρ × List (Except η ρ) :=
  refineLoop futures ([], [])

/-- The results of the futures that succeeded, in submission order. -/
def oksOf {η ρ : Type} : List (Except η ρ) → List ρ :=
  List.filterMap (fun f => match f with | .ok r => some r | .error _ => none)

/-- The futures that raised, in submission order. -/
def errsOf {η ρ : Type} : List (Except η ρ) → List (Except η ρ) :=
  List.filter (fun f => match f with | .ok _ => false | .error _ => true)

/-! ## `read_trajectory` (react_utils.py lines 244-268)

A file is a list of lines (without trailing newlines; Python's `readline`
returns `""` at EOF, which is the loop's exit condition, and re-reading past
EOF keeps returning `""`).  The energy of a record is extracted from its
comment line by `re.search('-?[0-9]*\\.[0-9]*', comment_line)` followed by
`float(m.group())`; a comment line on which the regex finds no match, or
whose first match is digit-free (like a bare period), makes the Python code
raise — modelled as `none`. -/

def digitsVal (ds : List Char) : Nat :=
  ds.foldl (fun a c => 10 * a + (c.toNat - ('0').toNat)) 0

/-- Match `[0-9]*\.[0-9]*` at the start of `cs`: a (possibly empty) maximal
digit run, a literal dot, then a (possibly empty) maximal digit run.
(Greedy matching with backtracking degenerates to this: fewer digits before
the dot would put a digit where the literal dot is required.) -/
def dotMatch (cs : List Char) : Option (List Char) :=
  let d1 := cs.takeWhile Char.isDigit
  match cs.dropWhile Char.isDigit with
  | '.' :: tail => some (d1 ++ '.' :: tail.takeWhile Char.isDigit)
  | _ => none

/-- Match `-?[0-9]*\.[0-9]*` at the start of `cs`.  The greedy `-?` branch is
tried first; if it fails, the branch without `-` also fails at this position
(it would need the literal dot where the `-` stands). -/
def reMatchAt (cs : List Char) : Option (List Char) :=
  match cs with
  | '-' :: rest => (dotMatch rest).map (fun m => '-' :: m)
  | _ => dotMatch cs

/-- `re.search('-?[0-9]*\.[0-9]*', s)`: the leftmost match. -/
def pyFindFloatRe : List Char → Option (List Char)
  | [] => none
  | c :: rest =>
    match reMatchAt (c :: rest) with
    | some m => some m
    | none => pyFindFloatRe rest

/-- The exact rational value of the decimal `[-]d1.d2`
(`= ± (d1 * 10^|d2| + d2) / 10^|d2|`); built with `Rat.divInt` so that it
evaluates by kernel reduction. -/
def decValue (neg : Bool) (d1 d2 : List Char) : ℚ :=
  Rat.divInt
    ((if neg then (-1 : Int) else 1) *
      ((digitsVal d1 : Int) * 10 ^ d2.length + (digitsVal d2 : Int)))
    (10 ^ d2.length)

/-- `float(t)` applied to a string of the shape produced by the regex above
(`[-]digits.digits`): defined (as an exact rational; IEEE rounding is not
modelled) iff at least one digit is present; `float(".")` and `float("-.")`
raise ValueError. -/
def floatOfMatch (t : List Char) : Option ℚ :=
  let core := fun (neg : Bool) (u : List Char) =>
    let d1 := u.takeWhile Char.isDigit
    match u.dropWhile Char.isDigit with
    | '.' :: tail =>
      let d2 := tail.takeWhile Char.isDigit
      if d1.isEmpty && d2.isEmpty then none
      else some (decValue neg d1 d2)
    | _ => none
  match t with
  | '-' :: rest => core true rest
  | _ => core false t

/-- `int(first_line.rstrip())` for the atom-count line: a plain (unsigned)
decimal integer surrounded by optional whitespace. -/
def pyIntOf (s : String) : Option Nat :=
  let t := s.data.dropWhile Char.isWhitespace |>.reverse
    |>.dropWhile Char.isWhitespace |>.reverse
  if t.isEmpty || !(t.all Char.isDigit) then none else some (digitsVal t)

/-- The record-reading loop of `read_trajectory`.  One fuel unit per record;
each record consumes at least two lines, so `lines.length` fuel is always
enough (the fuel-out branch is unreachable from `read_trajectory`).
Atom lines read past EOF come back as `""`, hence the `getD ""`. -/
def read_trajectoryF : Nat → List String → Option (List (List String) × List ℚ)
  | _, [] => some ([], [])
  | 0, _ :: _ => none
  | fuel + 1, first :: rest =>
    match pyIntOf first with
    | none => none
    | some natoms =>
      match rest with
      | [] => none
      | comment :: rest2 =>
        match (pyFindFloatRe comment.data).bind floatOfMatch with
        | none => none
        | some en =>
          let atoms := (List.range natoms).map (fun k => (rest2.get? k).getD "")
          match read_trajectoryF fuel (rest2.drop natoms) with
          | none => none
          | some (ss, es) =>
            some ((first :: comment :: atoms) :: ss, en :: es)

/-- `read_trajectory(filepath)`: returns the records (each as its list of
lines) and the parallel list of energies, or `none` if the Python code would
raise while parsing. -/
def read_trajectory (lines : List String) :
    Option (List (List String) × List ℚ) :=
  read_trajectoryF lines.length lines

/-- Modelled from the spec's words ("the first float-looking token is the
energy", claim C8): split the comment line on whitespace and take the first
token that is, in its entirety, a decimal float literal — an optional minus
sign and digits with at most one decimal point, at least one digit. -/
def floatTokenVal (t : List Char) : Option ℚ :=
  let core := fun (neg : Bool) (u : List Char) =>
    let d1 := u.takeWhile Char.isDigit
    match u.dropWhile Char.isDigit with
    | [] => if d1.isEmpty then none else some (decValue neg d1 [])
    | '.' :: tail =>
      let d2 := tail.takeWhile Char.isDigit
      if !(tail.dropWhile Char.isDigit).isEmpty || (d1.isEmpty && d2.isEmpty)
      then none
      else some (decValue neg d1 d2)
    | _ => none
  match t with
  | '-' :: rest => core true rest
  | _ => core false t

/-- Whitespace tokenization (maximal runs of non-whitespace characters;
`cur` accumulates the current token in reverse). -/
def tokensOfAux : List Char → List Char → List (List Char)
  | [], cur => if cur.isEmpty then [] else [cur.reverse]
  | c :: rest, cur =>
    if c.isWhitespace then
      if cur.isEmpty then tokensOfAux rest []
      else cur.reverse :: tokensOfAux rest []
    else tokensOfAux rest (c :: cur)

def firstFloatToken (comment : String) : Option ℚ :=
  ((tokensOfAux comment.data []).filterMap floatTokenVal).head?

/-! ## Reaction-job submission in `react` (react.py lines 272-286)

```
nreact = 0
...
for mtd_index, structure in worklist:
    futures += [pool.submit(react_utils.reaction_job(..., workdir + "/reactions/%5.5i/" % nreact, ...))]
    nreact = nreact + 1
```
-/

/-- `"%5.5i" % n`: the decimal digits of `n`, zero-padded on the left to at
least five digits. -/
def natToStr : Nat → List Char :=
  let rec go : Nat → Nat → List Char
    | 0, _ => []
    | fuel + 1, n =>
      if n = 0 then [] else go fuel (n / 10) ++ [Char.ofNat (n % 10 + ('0').toNat)]
  fun n => if n = 0 then ['0'] else go n n

def format5 (n : Nat) : String :=
  String.mk (List.replicate (5 - (natToStr n).length) '0' ++ natToStr n)

/-- The submission loop: one reaction job per worklist entry, each tagged
with its output directory `reactions/<nreact>/`, `nreact` counting up from 0
in worklist order. -/
def submitLoop {α : Type} : List (Nat × α) → Nat → List ((Nat × α) × String)
  | [], _ => []
  | w :: rest, n =>
    (w, "reactions/" ++ format5 n ++ "/") :: submitLoop rest (n + 1)

def react_submit {α : Type} (worklist : List (Nat × α)) :
    List ((Nat × α) × String) :=
  submitLoop worklist 0

/-! ## Concrete inputs used by the theorems below -/

/-- The three lanes of claim C3 (lane 0 holds 3 structures, lane 1 holds 1,
lane 2 holds 2) in every one of the six possible submission orders. -/
def c3Orders : List (List (Nat × List Nat)) :=
  [[(0, [10, 11, 12]), (1, [20]), (2, [30, 31])],
   [(0, [10, 11, 12]), (2, [30, 31]), (1, [20])],
   [(1, [20]), (0, [10, 11, 12]), (2, [30, 31])],
   [(1, [20]), (2, [30, 31]), (0, [10, 11, 12])],
   [(2, [30, 31]), (0, [10, 11, 12]), (1, [20])],
   [(2, [30, 31]), (1, [20]), (0, [10, 11, 12])]]

/-- Engine used by the witnesses of the `successive_optimization` claims:
step `i` succeeds and contributes the one-structure trajectory `[(i, i)]`. -/
def engW : Nat → Unit → Option (List (Nat × Nat)) := fun i _ => some [(i, i)]

/-! # Theorems -/

/-- C1: the claim says that for a lane index `m ≥ 1` over constraints of
length `N > m`, the backward phase is invoked with the constraints at indices
`m-1, ..., 1, 0` followed by the sentinel.  The code computes
`constraints[mtd_index-1:-1:-1] + [None]`, and a Python slice with stop `-1`
and step `-1` is always empty; at `m = 1`, `N = 2` the backward call therefore
receives only `[None]` instead of the claimed `[some c₀, none]`. -/
theorem claim_c1_code_eval :
    reaction_job_backward [10, 20] 1 = [none] ∧
    reaction_job_backward [10, 20] 1 ≠ specBackward [10, 20] 1 ∧
    specBackward [10, 20] 1 = [some 10, none] := by
  decide

/-- C2: the claim says the round-robin worklist is fair: every lane's `j`-th
structure is emitted before any lane's `(j+1)`-th, for all `j` up to the
minimum remaining count across still-active lanes.  With lanes holding
3, 1 and 2 structures, lane 1 empties during sweep 2; `all_structures.remove`
inside the running `for` loop then makes the loop skip lane 2 for that sweep,
so lane 0's 3rd structure `(0, 2)` is emitted before lane 2's 2nd structure
`(2, 5)` — while both lanes are still active with minimum remaining count 2.
This theorem evaluates the builder at that input. -/
theorem claim_c2_code_eval :
    react_worklist [(0, [0, 1, 2]), (1, [3]), (2, [4, 5])] =
      [(0, 0), (1, 3), (2, 4), (0, 1), (0, 2), (2, 5)] ∧
    (react_worklist [(0, [0, 1, 2]), (1, [3]), (2, [4, 5])]).indexOf (0, 2) <
      (react_worklist [(0, [0, 1, 2]), (1, [3]), (2, [4, 5])]).indexOf (2, 5) := by
  decide

/-- C3: for three lanes holding 3, 1 and 2 structures, in any lane submission
order, the builder emits exactly 6 entries, and the single-structure lane's
only entry appears during the first sweep (among the first three entries,
each lane's head) and before any lane's 2nd or 3rd structure. -/
theorem claim_c3 :
    ∀ L ∈ c3Orders,
      (react_worklist L).length = 6 ∧
      (react_worklist L).indexOf (1, 20) < 3 ∧
      (react_worklist L).indexOf (1, 20) < (react_worklist L).indexOf (0, 11) ∧
      (react_worklist L).indexOf (1, 20) < (react_worklist L).indexOf (0, 12) ∧
      (react_worklist L).indexOf (1, 20) < (react_worklist L).indexOf (2, 31) := by
  decide

lemma taggedLanes_perm_of_perm {α : Type} {l₁ l₂ : List (Nat × List α)}
    (p : l₁.Perm l₂) : (taggedLanes l₁).Perm (taggedLanes l₂) :=
  p.flatMap_right _

lemma removeFirst_perm {β : Type} [DecidableEq β] (x : β) :
    ∀ (l : List β), x ∈ l → l.Perm (x :: removeFirst l x)
  | [], hx => absurd hx (List.not_mem_nil x)
  | y :: ys, hx => by
    by_cases h : y = x
    · subst h
      simp [removeFirst]
    · have hys : x ∈ ys := by
        rcases List.mem_cons.mp hx with h1 | h1
        · exact absurd h1.symm h
        · exact h1
      have h1 : (y :: ys).Perm (y :: (x :: removeFirst ys x)) :=
        (removeFirst_perm x ys hys).cons y
      have h2 : (y :: (x :: removeFirst ys x)).Perm
          (x :: (y :: removeFirst ys x)) := List.Perm.swap x y _
      have h3 : x :: removeFirst (y :: ys) x = x :: (y :: removeFirst ys x) := by
        simp [removeFirst, h]
      rw [h3]
      exact h1.trans h2

lemma taggedLanes_set_perm {α : Type} :
    ∀ (st : List (Nat × List α)) (r : Nat) (h : r < st.length)
      (m : Nat) (s : α) (rest : List α),
      st.get ⟨r, h⟩ = (m, s :: rest) →
      (taggedLanes st).Perm ((m, s) :: taggedLanes (st.set r (m, rest)))
  | q :: tl, 0, _, m, s, rest, hg => by
    have hq : q = (m, s :: rest) := hg
    subst hq
    simp [taggedLanes]
  | q :: tl, r + 1, h, m, s, rest, hg => by
    have htl : tl.get ⟨r, Nat.lt_of_succ_lt_succ h⟩ = (m, s :: rest) := hg
    have ih := taggedLanes_set_perm tl r (Nat.lt_of_succ_lt_succ h) m s rest htl
    have h1 : taggedLanes (q :: tl) =
        (q.2.map (fun s => (q.1, s))) ++ taggedLanes tl := by
      simp [taggedLanes]
    have h2 : taggedLanes ((q :: tl).set (r + 1) (m, rest)) =
        (q.2.map (fun s => (q.1, s))) ++ taggedLanes (tl.set r (m, rest)) := by
      simp [taggedLanes]
    rw [h1, h2]
    exact (List.Perm.append_left _ ih).trans List.perm_middle

lemma laneMeasure_cons {α : Type} (q : Nat × List α) (tl : List (Nat × List α)) :
    laneMeasure (q :: tl) = q.2.length + 1 + laneMeasure tl := by
  simp [laneMeasure]

lemma laneMeasure_set_add_one {α : Type} :
    ∀ (st : List (Nat × List α)) (r : Nat) (h : r < st.length)
      (m : Nat) (s : α) (rest : List α),
      st.get ⟨r, h⟩ = (m, s :: rest) →
      laneMeasure (st.set r (m, rest)) + 1 = laneMeasure st
  | q :: tl, 0, _, m, s, rest, hg => by
    have hq : q = (m, s :: rest) := hg
    subst hq
    simp [laneMeasure_cons]
    omega
  | q :: tl, r + 1, h, m, s, rest, hg => by
    have htl : tl.get ⟨r, Nat.lt_of_succ_lt_succ h⟩ = (m, s :: rest) := hg
    have ih := laneMeasure_set_add_one tl r (Nat.lt_of_succ_lt_succ h) m s rest htl
    have h2 : (q :: tl).set (r + 1) (m, rest) = q :: tl.set r (m, rest) := rfl
    rw [h2, laneMeasure_cons, laneMeasure_cons]
    omega

lemma laneMeasure_removeFirst {α : Type} [DecidableEq α] (x : Nat × List α) :
    ∀ (st : List (Nat × List α)), x ∈ st →
      laneMeasure (removeFirst st x) + (x.2.length + 1) = laneMeasure st
  | [], hx => absurd hx (List.not_mem_nil x)
  | q :: tl, hx => by
    by_cases h : q = x
    · subst h
      simp [removeFirst, laneMeasure_cons]
      omega
    · have htl : x ∈ tl := by
        rcases List.mem_cons.mp hx with h1 | h1
        · exact absurd h1.symm h
        · exact h1
      have ih := laneMeasure_removeFirst x tl htl
      have h2 : removeFirst (q :: tl) x = q :: removeFirst tl x := by
        simp [removeFirst, h]
      rw [h2, laneMeasure_cons, laneMeasure_cons]
      omega

lemma sweepF_perm {α : Type} [DecidableEq α] :
    ∀ (fuel : Nat) (st : List (Nat × List α)) (r : Nat) (acc : List (Nat × α)),
      ((sweepF fuel st r acc).2 ++ taggedLanes (sweepF fuel st r acc).1).Perm
        (acc ++ taggedLanes st) := by
  intro fuel
  induction fuel with
  | zero =>
    intro st r acc
    exact List.Perm.refl _
  | succ fuel ih =>
    intro st r acc
    by_cases h : r < st.length
    · simp only [sweepF]
      rw [dif_pos h]
      split
      next m s rest heq =>
        refine (ih _ _ _).trans ?_
        have hset := taggedLanes_set_perm st r h m s rest heq
        simpa [List.append_assoc] using List.Perm.append_left acc hset.symm
      next m heq =>
        refine (ih _ _ _).trans ?_
        have hmem : (m, ([] : List α)) ∈ st := by
          rw [← heq]
          exact st.get_mem r h
        have hperm := taggedLanes_perm_of_perm (removeFirst_perm _ st hmem)
        have hrm : (taggedLanes (removeFirst st (m, ([] : List α)))).Perm
            (taggedLanes st) := by
          simpa [taggedLanes] using hperm.symm
        exact List.Perm.append_left acc hrm
    · simp only [sweepF]
      rw [dif_neg h]

lemma sweep_perm {α : Type} [DecidableEq α] (st : List (Nat × List α))
    (acc : List (Nat × α)) :
    ((sweep st acc).2 ++ taggedLanes (sweep st acc).1).Perm
      (acc ++ taggedLanes st) :=
  sweepF_perm _ _ _ _

lemma sweepF_measure_le {α : Type} [DecidableEq α] :
    ∀ (fuel : Nat) (st : List (Nat × List α)) (r : Nat) (acc : List (Nat × α)),
      laneMeasure (sweepF fuel st r acc).1 ≤ laneMeasure st := by
  intro fuel
  induction fuel with
  | zero =>
    intro st r acc
    exact Nat.le_refl _
  | succ fuel ih =>
    intro st r acc
    by_cases h : r < st.length
    · simp only [sweepF]
      rw [dif_pos h]
      split
      next m s rest heq =>
        have hset := laneMeasure_set_add_one st r h m s rest heq
        have := ih (st.set r (m, rest)) (r + 1) (acc ++ [(m, s)])
        omega
      next m heq =>
        have hmem : (m, ([] : List α)) ∈ st := by
          rw [← heq]
          exact st.get_mem r h
        have hrm := laneMeasure_removeFirst (m, ([] : List α)) st hmem
        have := ih (removeFirst st (m, ([] : List α))) (r + 1) acc
        omega
    · simp only [sweepF]
      rw [dif_neg h]

lemma sweep_measure_lt {α : Type} [DecidableEq α]
    (st : List (Nat × List α)) (acc : List (Nat × α)) (hst : st ≠ []) :
    laneMeasure (sweep st acc).1 < laneMeasure st := by
  match st with
  | [] => exact absurd rfl hst
  | q :: tl =>
    have hlen : (q :: tl).length = tl.length + 1 := rfl
    have h0 : 0 < (q :: tl).length := by simp
    show laneMeasure (sweepF (q :: tl).length (q :: tl) 0 acc).1 <
      laneMeasure (q :: tl)
    rw [hlen]
    simp only [sweepF]
    rw [dif_pos h0]
    split
    next m s rest heq =>
      have hset := laneMeasure_set_add_one (q :: tl) 0 h0 m s rest heq
      have hle := sweepF_measure_le tl.length ((q :: tl).set 0 (m, rest)) (0 + 1)
        (acc ++ [(m, s)])
      omega
    next m heq =>
      have hmem : (m, ([] : List α)) ∈ (q :: tl) := by
        rw [← heq]
        exact (q :: tl).get_mem 0 h0
      have hrm := laneMeasure_removeFirst (m, ([] : List α)) (q :: tl) hmem
      have hle := sweepF_measure_le tl.length
        (removeFirst (q :: tl) (m, ([] : List α))) (0 + 1) acc
      omega

lemma buildLoopF_perm {α : Type} [DecidableEq α] :
    ∀ (fuel : Nat) (st : List (Nat × List α)) (acc : List (Nat × α)),
      laneMeasure st < fuel →
      (buildLoopF fuel st acc).Perm (acc ++ taggedLanes st) := by
  intro fuel
  induction fuel with
  | zero =>
    intro st acc hlt
    omega
  | succ fuel ih =>
    intro st acc hlt
    simp only [buildLoopF]
    by_cases he : (sweep st acc).1.isEmpty
    · rw [if_pos he]
      have hp := sweep_perm st acc
      rw [List.isEmpty_iff.mp he] at hp
      simpa [taggedLanes] using hp
    · rw [if_neg he]
      have hst : st ≠ [] := by
        intro hst0
        subst hst0
        exact he rfl
      have hm := sweep_measure_lt st acc hst
      exact (ih _ _ (by omega)).trans (sweep_perm st acc)

/-- The worklist built by `react` is a permutation of the lanes' entries. -/
lemma react_worklist_perm {α : Type} [DecidableEq α]
    (lanes : List (Nat × List α)) :
    (react_worklist lanes).Perm (taggedLanes lanes) := by
  have h := buildLoopF_perm (laneMeasure lanes + 1) lanes [] (by omega)
  simpa using h

/-- C4: for every mapping from lane indices to structure lists, the worklist
built by `react` (and any shuffle of it — `np.random.shuffle` permutes in
place) has length equal to the sum of the lane list lengths, and every
(lane, structure) entry of the input occurs in it exactly as often as in the
input: nothing is dropped, nothing is duplicated. -/
theorem claim_c4 {α : Type} [DecidableEq α] (lanes : List (Nat × List α))
    (shuffled : List (Nat × α))
    (hshuf : shuffled.Perm (react_worklist lanes)) :
    shuffled.length = (lanes.map (fun q => q.2.length)).sum ∧
    ∀ p : Nat × α, shuffled.countP (fun x => decide (x = p)) =
      (taggedLanes lanes).countP (fun x => decide (x = p)) := by
  have hperm : shuffled.Perm (taggedLanes lanes) :=
    hshuf.trans (react_worklist_perm lanes)
  constructor
  · rw [hperm.length_eq]
    simp [taggedLanes, Function.comp_def]
  · intro p
    exact hperm.countP_eq _

theorem claim_c4_witness :
    (([(1, 20), (0, 10), (1, 21)] : List (Nat × Nat)).Perm
      (react_worklist [(0, [10]), (1, [20, 21])])) ∧
    ([(1, 20), (0, 10), (1, 21)] : List (Nat × Nat)).length =
      (([(0, [10]), (1, [20, 21])] : List (Nat × List Nat)).map
        (fun q => q.2.length)).sum ∧
    ([(1, 20), (0, 10), (1, 21)] : List (Nat × Nat)).countP
        (fun x => decide (x = (1, 21))) =
      (taggedLanes [(0, [10]), (1, [20, 21])]).countP
        (fun x => decide (x = (1, 21))) :=
  ⟨by decide,
   (claim_c4 [(0, [10]), (1, [20, 21])] [(1, 20), (0, 10), (1, 21)] (by decide)).1,
   (claim_c4 [(0, [10]), (1, [20, 21])] [(1, 20), (0, 10), (1, 21)] (by decide)).2
     (1, 21)⟩

theorem claim_c3_witness :
    ([(1, [20]), (0, [10, 11, 12]), (2, [30, 31])] :
        List (Nat × List Nat)) ∈ c3Orders ∧
    ((react_worklist [(1, [20]), (0, [10, 11, 12]), (2, [30, 31])]).length = 6 ∧
      (react_worklist [(1, [20]), (0, [10, 11, 12]), (2, [30, 31])]).indexOf (1, 20) < 3 ∧
      (react_worklist [(1, [20]), (0, [10, 11, 12]), (2, [30, 31])]).indexOf (1, 20) <
        (react_worklist [(1, [20]), (0, [10, 11, 12]), (2, [30, 31])]).indexOf (0, 11) ∧
      (react_worklist [(1, [20]), (0, [10, 11, 12]), (2, [30, 31])]).indexOf (1, 20) <
        (react_worklist [(1, [20]), (0, [10, 11, 12]), (2, [30, 31])]).indexOf (0, 12) ∧
      (react_worklist [(1, [20]), (0, [10, 11, 12]), (2, [30, 31])]).indexOf (1, 20) <
        (react_worklist [(1, [20]), (0, [10, 11, 12]), (2, [30, 31])]).indexOf (2, 31)) :=
  ⟨by decide, claim_c3 _ (by decide)⟩

lemma successive_optimization_cons {γ σ ε : Type}
    (engine : Nat → γ → Option (List (σ × ε))) (c : γ) (rest : List γ) :
    successive_optimization engine (c :: rest) =
      match soLoop engine (c :: rest) 0 [] [] []
          [SOEvent.mkScratch, SOEvent.mkScratch] with
      | (.ok v, ev) =>
        (.ok v, ev ++ [SOEvent.removeScratch, SOEvent.removeScratch])
      | (.error e, ev) => (.error e, ev) := rfl

lemma soLoop_events {γ σ ε : Type} (engine : Nat → γ → Option (List (σ × ε))) :
    ∀ (cs : List γ) (i : Nat) (S : List σ) (E : List ε) (I : List Int)
      (ev : List (SOEvent γ)),
      ∃ tail, (soLoop engine cs i S E I ev).2 = ev ++ tail ∧
        ∀ e ∈ tail, ∃ j c, e = SOEvent.engineCall j c := by
  intro cs
  induction cs with
  | nil =>
    intro i S E I ev
    exact ⟨[], by simp [soLoop], by simp⟩
  | cons c rest ih =>
    intro i S E I ev
    cases hec : engine i c with
    | none =>
      refine ⟨[SOEvent.engineCall i c], ?_, ?_⟩
      · simp [soLoop, hec]
      · intro e he
        simp only [List.mem_singleton] at he
        exact ⟨i, c, he⟩
    | some news =>
      obtain ⟨tail, h1, h2⟩ := ih (i + 1) (S ++ news.map Prod.fst)
        (E ++ news.map Prod.snd)
        (I ++ [((S.length : Int) + (news.length : Int)) - 1])
        (ev ++ [SOEvent.engineCall i c])
      refine ⟨SOEvent.engineCall i c :: tail, ?_, ?_⟩
      · simp only [soLoop, hec]
        rw [h1]
        simp
      · intro e he
        rcases List.mem_cons.mp he with h | h
        · exact ⟨i, c, h⟩
        · exact h2 e h

/-- C9: called with an empty constraint list, `successive_optimization`
returns three empty sequences without raising, and its event trace is empty:
no scratch file is created and no engine call is made
(react_utils.py lines 55-57 return before `tempfile.mkstemp`). -/
theorem claim_c9 {γ σ ε : Type} (engine : Nat → γ → Option (List (σ × ε))) :
    successive_optimization engine ([] : List γ) = (.ok ([], [], []), []) :=
  rfl

/-- C5 as stated is false: when an engine step raises, the exception
propagates and the two scratch files are never removed (react_utils.py has no
try/finally around the loop; `os.remove` on lines 94-95 is only reached when
every step succeeded).  Concretely, with a single constraint and an engine
that raises at step 0, the trace is create-create-call with no removal. -/
theorem claim_c5_counterexample :
    (successive_optimization (fun _ _ => (none : Option (List (Unit × Unit))))
        [()]).1 = .error () ∧
    (successive_optimization (fun _ _ => (none : Option (List (Unit × Unit))))
        [()]).2 =
      [SOEvent.mkScratch, SOEvent.mkScratch, SOEvent.engineCall 0 ()] ∧
    SOEvent.removeScratch ∉
      (successive_optimization (fun _ _ => (none : Option (List (Unit × Unit))))
        [()]).2 :=
  ⟨rfl, rfl, by decide⟩

/-- C5 amended: every call with a non-empty constraint list creates its two
temporary scratch files before the optimization chain; they are removed after
the chain only when every engine step succeeds — when a step raises, the call
propagates the exception and the scratch files are not removed. -/
theorem claim_c5_amended {γ σ ε : Type}
    (engine : Nat → γ → Option (List (σ × ε))) (cs : List γ) (hne : cs ≠ []) :
    (∃ tail, (successive_optimization engine cs).2 =
      [SOEvent.mkScratch, SOEvent.mkScratch] ++ tail) ∧
    ((successive_optimization engine cs).1.isOk = true →
      ∃ ev₀, (successive_optimization engine cs).2 =
        ev₀ ++ [SOEvent.removeScratch, SOEvent.removeScratch]) ∧
    ((successive_optimization engine cs).1.isOk = false →
      SOEvent.removeScratch ∉ (successive_optimization engine cs).2) := by
  match cs with
  | [] => exact absurd rfl hne
  | c :: rest =>
    obtain ⟨tail, hev, htail⟩ := soLoop_events engine (c :: rest) 0 [] [] []
      [SOEvent.mkScratch, SOEvent.mkScratch]
    rw [successive_optimization_cons]
    rcases hsl : soLoop engine (c :: rest) 0 [] [] []
        [SOEvent.mkScratch, SOEvent.mkScratch] with ⟨r, ev⟩
    rw [hsl] at hev
    simp only at hev
    cases r with
    | ok v =>
      refine ⟨⟨tail ++ [SOEvent.removeScratch, SOEvent.removeScratch], ?_⟩,
        fun _ => ⟨ev, rfl⟩, fun hko => ?_⟩
      · show ev ++ [SOEvent.removeScratch, SOEvent.removeScratch] =
          [SOEvent.mkScratch, SOEvent.mkScratch] ++
            (tail ++ [SOEvent.removeScratch, SOEvent.removeScratch])
        rw [hev, List.append_assoc]
      · simp [Except.isOk, Except.toBool] at hko
    | error e =>
      refine ⟨⟨tail, hev⟩, fun hko => ?_, fun _ => ?_⟩
      · simp [Except.isOk, Except.toBool] at hko
      · show SOEvent.removeScratch ∉ ev
        rw [hev]
        intro hmem
        rcases List.mem_append.mp hmem with h | h
        · simp at h
        · obtain ⟨j, c', hc⟩ := htail _ h
          exact SOEvent.noConfusion hc

theorem claim_c5_amended_witness :
    (([()] : List Unit) ≠ []) ∧
    ((∃ tail, (successive_optimization engW [()]).2 =
      [SOEvent.mkScratch, SOEvent.mkScratch] ++ tail) ∧
    ((successive_optimization engW [()]).1.isOk = true →
      ∃ ev₀, (successive_optimization engW [()]).2 =
        ev₀ ++ [SOEvent.removeScratch, SOEvent.removeScratch]) ∧
    ((successive_optimization engW [()]).1.isOk = false →
      SOEvent.removeScratch ∉ (successive_optimization engW [()]).2)) :=
  ⟨by decide, claim_c5_amended engW [()] (by decide)⟩

lemma range_succ_shift {β : Type} (g : Nat → β) (n : Nat) :
    (List.range (n + 1)).map g = g 0 :: (List.range n).map (fun j => g (j + 1)) := by
  rw [List.range_succ_eq_map]
  simp [List.map_map, Function.comp_def]

lemma soLoop_fst {γ σ ε : Type} (engine : Nat → γ → Option (List (σ × ε)))
    (ns : Nat → List (σ × ε)) :
    ∀ (cs : List γ) (i : Nat) (S : List σ) (E : List ε) (I : List Int)
      (ev : List (SOEvent γ)),
      (∀ k (hk : k < cs.length), engine (i + k) (cs.get ⟨k, hk⟩) = some (ns (i + k))) →
      (soLoop engine cs i S E I ev).1 =
        .ok (S ++ ((List.range cs.length).map
              (fun j => (ns (i + j)).map Prod.fst)).flatten,
             E ++ ((List.range cs.length).map
              (fun j => (ns (i + j)).map Prod.snd)).flatten,
             I ++ (List.range cs.length).map (fun k =>
               (S.length : Int) +
                 (((List.range (k + 1)).map (fun j => (ns (i + j)).length)).sum : Int)
                 - 1)) := by
  intro cs
  induction cs with
  | nil =>
    intro i S E I ev _
    simp [soLoop]
  | cons c rest ih =>
    intro i S E I ev h
    have h0 : engine i c = some (ns i) := by
      have := h 0 (by simp)
      simpa using this
    have hrest : ∀ k (hk : k < rest.length),
        engine ((i + 1) + k) (rest.get ⟨k, hk⟩) = some (ns ((i + 1) + k)) := by
      intro k hk
      have hk' : k + 1 < (c :: rest).length := by
        simp only [List.length_cons]
        omega
      have := h (k + 1) hk'
      have hadd : i + (k + 1) = (i + 1) + k := by omega
      rw [hadd] at this
      exact this
    simp only [soLoop, h0, List.length_cons]
    rw [ih (i + 1) (S ++ (ns i).map Prod.fst) (E ++ (ns i).map Prod.snd)
      (I ++ [((S.length : Int) + ((ns i).length : Int)) - 1])
      (ev ++ [SOEvent.engineCall i c]) hrest]
    have hshift : ∀ {β : Type} (f : Nat → β),
        (fun j => f (i + (j + 1))) = (fun j => f ((i + 1) + j)) := by
      intro β f
      funext j
      have : i + (j + 1) = (i + 1) + j := by omega
      rw [this]
    have e1 : S ++ (ns i).map Prod.fst ++
        ((List.range rest.length).map
          (fun j => (ns ((i + 1) + j)).map Prod.fst)).flatten =
        S ++ ((List.range (rest.length + 1)).map
          (fun j => (ns (i + j)).map Prod.fst)).flatten := by
      rw [range_succ_shift (fun j => (ns (i + j)).map Prod.fst) rest.length]
      simp only [List.flatten_cons, Nat.add_zero, List.append_assoc]
      rw [hshift (fun j => (ns j).map Prod.fst)]
    have e2 : E ++ (ns i).map Prod.snd ++
        ((List.range rest.length).map
          (fun j => (ns ((i + 1) + j)).map Prod.snd)).flatten =
        E ++ ((List.range (rest.length + 1)).map
          (fun j => (ns (i + j)).map Prod.snd)).flatten := by
      rw [range_succ_shift (fun j => (ns (i + j)).map Prod.snd) rest.length]
      simp only [List.flatten_cons, Nat.add_zero, List.append_assoc]
      rw [hshift (fun j => (ns j).map Prod.snd)]
    have e3 : (I ++ [((S.length : Int) + ((ns i).length : Int)) - 1]) ++
        (List.range rest.length).map (fun k =>
          ((S ++ (ns i).map Prod.fst).length : Int) +
            (((List.range (k + 1)).map
              (fun j => (ns ((i + 1) + j)).length)).sum : Int) - 1) =
        I ++ (List.range (rest.length + 1)).map (fun k =>
          (S.length : Int) +
            (((List.range (k + 1)).map (fun j => (ns (i + j)).length)).sum : Int)
            - 1) := by
      rw [range_succ_shift (fun k =>
        (S.length : Int) +
          (((List.range (k + 1)).map (fun j => (ns (i + j)).length)).sum : Int) - 1)
        rest.length]
      have g0 : (S.length : Int) +
          (((List.range (0 + 1)).map (fun j => (ns (i + j)).length)).sum : Int) - 1 =
          ((S.length : Int) + ((ns i).length : Int)) - 1 := by
        simp [List.range_succ]
      have gk : (fun k =>
          (S.length : Int) +
            (((List.range ((k + 1) + 1)).map
              (fun j => (ns (i + j)).length)).sum : Int) - 1) =
          (fun k =>
            ((S ++ (ns i).map Prod.fst).length : Int) +
              (((List.range (k + 1)).map
                (fun j => (ns ((i + 1) + j)).length)).sum : Int) - 1) := by
        funext k
        rw [range_succ_shift (fun j => (ns (i + j)).length) (k + 1)]
        rw [hshift (fun j => (ns j).length)]
        simp only [Nat.add_zero, List.sum_cons, List.length_append,
          List.length_map]
        push_cast
        ring
      rw [g0, gk]
      simp [List.append_assoc]
    rw [e1, e2, e3]

lemma blockSum_succ {σ ε : Type} (ns : Nat → List (σ × ε)) (m : Nat) :
    blockSum ns (m + 1) = blockSum ns m + (ns m).length := by
  simp [blockSum, List.range_succ]

lemma blockSum_le {σ ε : Type} (ns : Nat → List (σ × ε)) {a b : Nat}
    (hab : a ≤ b) : blockSum ns a ≤ blockSum ns b := by
  obtain ⟨d, rfl⟩ : ∃ d, b = a + d := ⟨b - a, by omega⟩
  have h : blockSum ns (a + d) = blockSum ns a +
      ((List.range d).map (fun x => (ns (a + x)).length)).sum := by
    simp [blockSum, List.range_add, List.map_map, Function.comp_def]
  omega

lemma chain'_blockSum_indices {σ ε : Type} (ns : Nat → List (σ × ε)) (N : Nat)
    (hnz : ∀ k, k < N → ns k ≠ []) :
    List.Chain' (· < ·)
      ((List.range N).map (fun k => (blockSum ns (k + 1) : Int) - 1)) := by
  apply List.Pairwise.chain'
  rw [List.pairwise_map]
  refine (List.pairwise_lt_range N).imp_of_mem ?_
  intro a b ha hb hab
  have hbN : b < N := List.mem_range.mp hb
  have h1 : blockSum ns (a + 1) ≤ blockSum ns b := blockSum_le ns (by omega)
  have h2 : blockSum ns (b + 1) = blockSum ns b + (ns b).length :=
    blockSum_succ ns b
  have h3 : 0 < (ns b).length := List.length_pos.mpr (hnz b hbN)
  omega

/-- C6: for every non-empty constraint sequence, when every engine step
succeeds (returning a non-empty trajectory `ns k` at step `k`),
`successive_optimization` returns exactly `N = cs.length` converged indices,
strictly (hence monotonically) increasing, and the `k`-th index equals
`blockSum ns (k+1) - 1`, the position of the last structure contributed by
step `k` inside the returned flattened structure list (which is exactly the
concatenation of the per-step trajectories). -/
theorem claim_c6 {γ σ ε : Type} (engine : Nat → γ → Option (List (σ × ε)))
    (cs : List γ) (ns : Nat → List (σ × ε)) (hne : cs ≠ [])
    (hok : ∀ k (hk : k < cs.length), engine k (cs.get ⟨k, hk⟩) = some (ns k))
    (hnz : ∀ k, k < cs.length → ns k ≠ []) :
    (successive_optimization engine cs).1 =
      .ok (((List.range cs.length).map (fun j => (ns j).map Prod.fst)).flatten,
           ((List.range cs.length).map (fun j => (ns j).map Prod.snd)).flatten,
           (List.range cs.length).map
             (fun k => (blockSum ns (k + 1) : Int) - 1)) ∧
    ((List.range cs.length).map
      (fun k => (blockSum ns (k + 1) : Int) - 1)).length = cs.length ∧
    List.Chain' (· < ·)
      ((List.range cs.length).map (fun k => (blockSum ns (k + 1) : Int) - 1)) := by
  match cs with
  | [] => exact absurd rfl hne
  | c :: rest =>
    have h' : ∀ k (hk : k < (c :: rest).length),
        engine (0 + k) ((c :: rest).get ⟨k, hk⟩) = some (ns (0 + k)) := by
      intro k hk
      simpa using hok k hk
    have hfst := soLoop_fst engine ns (c :: rest) 0 [] [] []
      [SOEvent.mkScratch, SOEvent.mkScratch] h'
    refine ⟨?_, by simp, chain'_blockSum_indices ns (c :: rest).length hnz⟩
    rw [successive_optimization_cons]
    rcases hsl : soLoop engine (c :: rest) 0 [] [] []
        [SOEvent.mkScratch, SOEvent.mkScratch] with ⟨r, ev⟩
    rw [hsl] at hfst
    simp only at hfst
    subst hfst
    show Except.ok _ = Except.ok _
    simp only [List.nil_append, Nat.zero_add, blockSum]
    norm_num

theorem claim_c6_witness :
    (([(), ()] : List Unit) ≠ []) ∧
    ((successive_optimization engW [(), ()]).1 =
      .ok (((List.range ([(), ()] : List Unit).length).map
              (fun j => ((fun i => [(i, i)]) j).map Prod.fst)).flatten,
           ((List.range ([(), ()] : List Unit).length).map
              (fun j => ((fun i => [(i, i)]) j).map Prod.snd)).flatten,
           (List.range ([(), ()] : List Unit).length).map
             (fun k => (blockSum (fun i => [(i, i)]) (k + 1) : Int) - 1)) ∧
    ((List.range ([(), ()] : List Unit).length).map
      (fun k => (blockSum (fun i => [(i, i)]) (k + 1) : Int) - 1)).length =
        ([(), ()] : List Unit).length ∧
    List.Chain' (· < ·)
      ((List.range ([(), ()] : List Unit).length).map
        (fun k => (blockSum (fun i => [(i, i)]) (k + 1) : Int) - 1))) :=
  ⟨by decide,
   claim_c6 engW [(), ()] (fun i => [(i, i)]) (by decide) (by decide) (by decide)⟩

lemma refineLoop_eq {η ρ : Type} :
    ∀ (l : List (Except η ρ)) (c : List ρ) (e : List (Except η ρ)),
      refineLoop l (c, e) = (c ++ oksOf l, e ++ errsOf l) := by
  intro l
  induction l with
  | nil =>
    intro c e
    simp [refineLoop, oksOf, errsOf]
  | cons f rest ih =>
    intro c e
    cases f with
    | ok r =>
      simp only [refineLoop, ih, oksOf, errsOf, List.filterMap_cons,
        List.filter_cons]
      simp
    | error err =>
      simp only [refineLoop, ih, oksOf, errsOf, List.filterMap_cons,
        List.filter_cons]
      simp

lemma errsOf_oksOf_perm {η ρ : Type} :
    ∀ (l : List (Except η ρ)), (errsOf l ++ (oksOf l).map Except.ok).Perm l := by
  intro l
  induction l with
  | nil => simp [oksOf, errsOf]
  | cons f rest ih =>
    cases f with
    | ok r =>
      have h1 : errsOf (Except.ok r :: rest) = errsOf rest := by
        simp [errsOf, List.filter_cons]
      have h2 : oksOf (Except.ok r :: rest) = r :: oksOf rest := by
        simp [oksOf, List.filterMap_cons]
      rw [h1, h2]
      exact List.perm_middle.trans (ih.cons _)
    | error e =>
      have h1 : errsOf (Except.error e :: rest) =
          Except.error e :: errsOf rest := by
        simp [errsOf, List.filter_cons]
      have h2 : oksOf (Except.error e :: rest) = oksOf rest := by
        simp [oksOf, List.filterMap_cons]
      rw [h1, h2]
      exact ih.cons _

/-- C7: in the refinement stage, for `M` submitted per-conformer optimization
jobs of which `K` raise (the `errsOf` entries) and `M - K` succeed, the
converged set has size `M - K`, the errored set has size `K`, the two sets
together cover all `M` submitted jobs (their union, by submission identity,
is a permutation of the submitted batch), and a raising job never aborts the
partition — it is classified like any other outcome. -/
theorem claim_c7 {η ρ : Type} (futures : List (Except η ρ)) (M K : Nat)
    (hM : futures.length = M) (hK : (errsOf futures).length = K) :
    (refine_partition futures).1.length = M - K ∧
    (refine_partition futures).2.length = K ∧
    (refine_partition futures).1.length + (refine_partition futures).2.length = M ∧
    ((refine_partition futures).2 ++
      ((refine_partition futures).1.map Except.ok)).Perm futures := by
  have hpart : refine_partition futures = (oksOf futures, errsOf futures) := by
    rw [refine_partition, refineLoop_eq]
    simp
  have hperm := errsOf_oksOf_perm futures
  have hlen : (errsOf futures).length + (oksOf futures).length =
      futures.length := by
    have := hperm.length_eq
    simpa [List.length_append] using this
  rw [hpart]
  refine ⟨by simp; omega, by simpa using hK, by simp; omega, by simpa using hperm⟩

theorem claim_c7_witness :
    ([Except.ok 1, Except.error "x", Except.ok 2] :
      List (Except String Nat)).length = 3 ∧
    (errsOf ([Except.ok 1, Except.error "x", Except.ok 2] :
      List (Except String Nat))).length = 1 ∧
    ((refine_partition ([Except.ok 1, Except.error "x", Except.ok 2] :
        List (Except String Nat))).1.length = 3 - 1 ∧
      (refine_partition ([Except.ok 1, Except.error "x", Except.ok 2] :
        List (Except String Nat))).2.length = 1 ∧
      (refine_partition ([Except.ok 1, Except.error "x", Except.ok 2] :
          List (Except String Nat))).1.length +
        (refine_partition ([Except.ok 1, Except.error "x", Except.ok 2] :
          List (Except String Nat))).2.length = 3 ∧
      ((refine_partition ([Except.ok 1, Except.error "x", Except.ok 2] :
          List (Except String Nat))).2 ++
        ((refine_partition ([Except.ok 1, Except.error "x", Except.ok 2] :
          List (Except String Nat))).1.map Except.ok)).Perm
        ([Except.ok 1, Except.error "x", Except.ok 2] :
          List (Except String Nat))) :=
  ⟨rfl, rfl, claim_c7 _ 3 1 rfl rfl⟩

/-- C8 as stated is false: with the well-formed single record
(count line `"1"`, comment line `"Energy (approx.) -2.5"`, one atom line)
the first float-looking token on the comment line is `-2.5`, yet
`re.search('-?[0-9]*\.[0-9]*', ...)` matches the digit-free `"."` inside
`"(approx.)"` first, so `float(m.group())` raises ValueError and
`read_trajectory` fails instead of returning `-2.5`. -/
theorem claim_c8_counterexample :
    read_trajectory [("1" : String), "Energy (approx.) -2.5", "H 0.0 0.0 0.0"]
      = none ∧
    firstFloatToken ("Energy (approx.) -2.5") = some (Rat.divInt (-5) 2) := by
  constructor
  · rfl
  · decide

lemma range_map_getD {β : Type} (d : β) :
    ∀ (l : List β),
      (List.range l.length).map (fun k => (l.get? k).getD d) = l := by
  intro l
  induction l with
  | nil => simp
  | cons a t ih =>
    rw [List.length_cons,
      range_succ_shift (fun k => (((a :: t).get? k).getD d)) t.length]
    simp only [List.get?_cons_succ, List.get?_cons_zero, Option.getD_some]
    rw [ih]

lemma flatMap_records_length_ge (records : List (String × String × List String)) :
    records.length ≤
      (records.flatMap (fun r => r.1 :: r.2.1 :: r.2.2)).length := by
  induction records with
  | nil => simp
  | cons r rest ih =>
    simp only [List.flatMap_cons, List.length_cons, List.length_append]
    omega

lemma read_trajectoryF_records :
    ∀ (records : List (String × String × List String))
      (energyOf : String × String × List String → ℚ) (fuel : Nat),
      records.length ≤ fuel →
      (∀ r ∈ records, pyIntOf r.1 = some r.2.2.length ∧
        (pyFindFloatRe r.2.1.data).bind floatOfMatch = some (energyOf r)) →
      read_trajectoryF fuel (records.flatMap (fun r => r.1 :: r.2.1 :: r.2.2)) =
        some (records.map (fun r => r.1 :: r.2.1 :: r.2.2),
              records.map energyOf) := by
  intro records
  induction records with
  | nil =>
    intro energyOf fuel _ _
    simp [read_trajectoryF]
  | cons r rest ih =>
    intro energyOf fuel hfuel h
    match fuel with
    | 0 => exact absurd hfuel (by simp [List.length_cons])
    | f + 1 =>
      obtain ⟨hInt, hEn⟩ := h r (List.mem_cons_self r rest)
      have hflat : (r :: rest).flatMap (fun r => r.1 :: r.2.1 :: r.2.2) =
          r.1 :: r.2.1 :: (r.2.2 ++ rest.flatMap (fun r => r.1 :: r.2.1 :: r.2.2)) := by
        simp [List.flatMap_cons]
      rw [hflat]
      have hatoms : (List.range r.2.2.length).map
          (fun k => (((r.2.2 ++ rest.flatMap (fun r => r.1 :: r.2.1 :: r.2.2)).get? k)).getD "") =
          r.2.2 := by
        have hcong : ∀ k ∈ List.range r.2.2.length,
            (((r.2.2 ++ rest.flatMap (fun r => r.1 :: r.2.1 :: r.2.2)).get? k)).getD "" =
            ((r.2.2.get? k)).getD "" := by
          intro k hk
          rw [List.get?_append (List.mem_range.mp hk)]
        rw [List.map_congr_left hcong, range_map_getD]
      have hdrop : (r.2.2 ++ rest.flatMap (fun r => r.1 :: r.2.1 :: r.2.2)).drop
          r.2.2.length = rest.flatMap (fun r => r.1 :: r.2.1 :: r.2.2) :=
        List.drop_left _ _
      simp only [read_trajectoryF, hInt, hEn]
      rw [hatoms, hdrop,
        ih energyOf f (by simpa using Nat.le_of_succ_le_succ hfuel)
          (fun r' hr' => h r' (List.mem_cons_of_mem r hr'))]
      simp

/-- C8 amended: `read_trajectory` extracts, as each record's energy, the
float value of the leftmost substring of the comment line matching the
pattern `-?[0-9]*\.[0-9]*`; for an arbitrary comment-line format this is the
first float-looking token precisely when that leftmost match has at least one
digit (i.e. `floatOfMatch` succeeds on it) — a digit-free match (a stray
period earlier on the line) makes the parse raise instead. -/
theorem claim_c8_amended (records : List (String × String × List String))
    (energyOf : String × String × List String → ℚ)
    (h : ∀ r ∈ records, pyIntOf r.1 = some r.2.2.length ∧
      (pyFindFloatRe r.2.1.data).bind floatOfMatch = some (energyOf r)) :
    read_trajectory (records.flatMap (fun r => r.1 :: r.2.1 :: r.2.2)) =
      some (records.map (fun r => r.1 :: r.2.1 :: r.2.2),
            records.map energyOf) :=
  read_trajectoryF_records records energyOf _
    (flatMap_records_length_ge records) h

theorem claim_c8_amended_witness :
    (∀ r ∈ ([(("1" : String), ("E = -1.5 Eh" : String), ["H 0 0 0"])] :
        List (String × String × List String)),
      pyIntOf r.1 = some r.2.2.length ∧
      (pyFindFloatRe r.2.1.data).bind floatOfMatch =
        some ((fun _ => (Rat.divInt (-3) 2)) r)) ∧
    read_trajectory
        (([(("1" : String), ("E = -1.5 Eh" : String), ["H 0 0 0"])] :
          List (String × String × List String)).flatMap
          (fun r => r.1 :: r.2.1 :: r.2.2)) =
      some (([(("1" : String), ("E = -1.5 Eh" : String), ["H 0 0 0"])] :
          List (String × String × List String)).map
            (fun r => r.1 :: r.2.1 :: r.2.2),
        ([(("1" : String), ("E = -1.5 Eh" : String), ["H 0 0 0"])] :
          List (String × String × List String)).map
            (fun _ => (Rat.divInt (-3) 2))) :=
  ⟨by decide, claim_c8_amended _ _ (by decide)⟩

lemma submitLoop_length {α : Type} :
    ∀ (wl : List (Nat × α)) (n : Nat), (submitLoop wl n).length = wl.length := by
  intro wl
  induction wl with
  | nil => intro n; rfl
  | cons w rest ih =>
    intro n
    simp [submitLoop, ih]

lemma submitLoop_get? {α : Type} :
    ∀ (wl : List (Nat × α)) (n k : Nat),
      (submitLoop wl n).get? k =
        (wl.get? k).map (fun w => (w, "reactions/" ++ format5 (n + k) ++ "/")) := by
  intro wl
  induction wl with
  | nil => intro n k; simp [submitLoop]
  | cons w rest ih =>
    intro n k
    cases k with
    | zero => simp [submitLoop]
    | succ k =>
      have := ih (n + 1) k
      simp only [submitLoop, List.get?_cons_succ]
      rw [this]
      have : (n + 1) + k = n + (k + 1) := by omega
      rw [this]

lemma natToStr_go_length :
    ∀ (fuel n d : Nat), n ≤ fuel → n < 10 ^ d → (natToStr.go fuel n).length ≤ d := by
  intro fuel
  induction fuel with
  | zero =>
    intro n d _ _
    simp [natToStr.go]
  | succ f ih =>
    intro n d hn hd
    by_cases h0 : n = 0
    · simp [natToStr.go, h0]
    · match d with
      | 0 =>
        simp [Nat.pow_zero] at hd
        omega
      | d' + 1 =>
        have hdiv : n / 10 < 10 ^ d' := by
          apply Nat.div_lt_of_lt_mul
          have h10 : (10 : Nat) ^ (d' + 1) = 10 ^ d' * 10 := pow_succ 10 d'
          omega
        have hfl : n / 10 ≤ f := by
          have := Nat.div_lt_self (Nat.pos_of_ne_zero h0) (by omega : 1 < 10)
          omega
        have := ih (n / 10) d' hfl hdiv
        simp only [natToStr.go, h0, if_false, List.length_append,
          List.length_cons, List.length_nil]
        omega

lemma natToStr_length_le (n : Nat) (d : Nat) (hd : 1 ≤ d) (h : n < 10 ^ d) :
    (natToStr n).length ≤ d := by
  by_cases h0 : n = 0
  · subst h0
    rw [show natToStr 0 = ['0'] from rfl]
    simpa using hd
  · simp only [natToStr, h0, if_false]
    exact natToStr_go_length n n d (Nat.le_refl n) h

/-- C10: the reaction-construction stage submits exactly one reaction job per
worklist entry; the `k`-th submitted job (in post-shuffle worklist order)
carries that worklist entry together with the output directory
`reactions/<index>/` where the index is `k` — so indices are the consecutive
integers `0, 1, ..., M-1` with no gaps — and for `k < 100000` the rendered
index is exactly 5 digits (zero-padded `%5.5i`). -/
theorem claim_c10 {α : Type} (wl : List (Nat × α)) (k : Nat) :
    (react_submit wl).length = wl.length ∧
    (k < 100000 → (format5 k).length = 5) ∧
    (react_submit wl).get? k =
      (wl.get? k).map (fun w => (w, "reactions/" ++ format5 k ++ "/")) := by
  refine ⟨submitLoop_length wl 0, ?_, ?_⟩
  · intro hk
    have hle : (natToStr k).length ≤ 5 := by
      apply natToStr_length_le k 5 (by omega)
      norm_num
      omega
    show (List.replicate (5 - (natToStr k).length) '0' ++ natToStr k).length = 5
    simp only [List.length_append, List.length_replicate]
    omega
  · have := submitLoop_get? wl 0 k
    simpa using this

theorem claim_c10_witness :
    (react_submit [((5 : Nat), (0 : Nat)), (7, 1)]).length = 2 ∧
    (format5 3).length = 5 ∧
    (react_submit [((5 : Nat), (0 : Nat)), (7, 1)]).get? 1 =
      some ((7, 1), "reactions/" ++ format5 1 ++ "/") :=
  ⟨(claim_c10 [((5 : Nat), (0 : Nat)), (7, 1)] 0).1,
   (claim_c10 ([] : List (Nat × Nat)) 3).2.1 (by omega),
   by
     have := (claim_c10 [((5 : Nat), (0 : Nat)), (7, 1)] 1).2.2
     simpa using this⟩

end Iacta
